import Mathlib

/-
Verification of the local security context of the Harbor registry
(src/common/security/local/context.go).

The Go code decides read / write / admin permissions for an optional
authenticated user against a project, consulting external collaborators
(project manager, user store, role store, LDAP group store).  We embed it
shallowly: the collaborators become a record of pure functions (an Env,
one snapshot of the external world), Go errors become Except Unit, and a
Go slice that may be nil becomes Option (List Int) — none models the nil
slice, some l a non-nil slice, because the code distinguishes the two in
its return values even though len and range treat them alike.
-/

namespace Harbor

/-- Modelled from the spec: the closed Role enumeration.  The source file
refers to the integer constants of the common package, which is not part of
the sources given; the concrete values only need to be distinct. -/
def RoleProjectAdmin : Int := 1

/-- Modelled from the spec: the Developer role constant. -/
def RoleDeveloper : Int := 2

/-- Modelled from the spec: the Guest role constant. -/
def RoleGuest : Int := 3

/-- Modelled from the spec: the member-kind discriminator the role-store
query receives (the constant of the common package named UserMember). -/
def UserMember : String := "u"

/-- The user record (models.User fields read by context.go). -/
structure User where
  username : String
  hasAdminRole : Bool
  userID : Int
  groupList : List String
  deriving DecidableEq

/-- The project record (models.Project field read by context.go). -/
structure Project where
  projectID : Int
  deriving DecidableEq

/-- A project identifier: the code accepts a numeric id or a name
(the untyped projectIDOrName parameter when it is not nil). -/
inductive Ident
  | byID (id : Int)
  | byName (name : String)
  deriving DecidableEq

/-- A row returned by the direct role-assignment query; the code only
reads its RoleCode field. -/
structure RoleRecord where
  roleCode : String
  deriving DecidableEq

/-- One snapshot of the external collaborators consulted by the context:
the project manager (IsPublic, Get, List), the user store (GetUser), the
role store (GetUserProjectRoles), the group condition builder and the
LDAP group role query.  Except Unit models the Go error result. -/
structure Env where
  isPublic : Option Ident → Except Unit Bool
  pmGet : Option Ident → Except Unit (Option Project)
  getUser : String → Except Unit (Option User)
  getUserProjectRoles : Int → Int → String → Except Unit (List RoleRecord)
  getGroupDNQueryCondition : List String → String
  getRolesByLDAPGroup : Int → String → Except Unit (Option (List Int))
  pmList : String → List String → Except Unit (List Project)

/-- The security context: an optional authenticated user.  The project
manager it also holds in Go is part of Env here. -/
structure SecurityContext where
  user : Option User

/-- IsAuthenticated returns true if the user has been authenticated. -/
def IsAuthenticated (s : SecurityContext) : Bool :=
  s.user.isSome

/-- GetUsername returns the username of the authenticated user, or the
empty string if the user has not been authenticated. -/
def GetUsername (s : SecurityContext) : String :=
  match s.user with
  | none => ""
  | some u => u.username

/-- IsSysAdmin returns whether the authenticated user is system admin;
false if the user has not been authenticated. -/
def IsSysAdmin (s : SecurityContext) : Bool :=
  match s.user with
  | none => false
  | some u => u.hasAdminRole

/-- The role-code switch of the loop in GetProjectRoles, as a partial map:
MDRWS, RWS and RS map to the three roles, anything else to none. -/
def roleOfCode (c : String) : Option Int :=
  match c with
  | "MDRWS" => some RoleProjectAdmin
  | "RWS" => some RoleDeveloper
  | "RS" => some RoleGuest
  | _ => none

/-- The append loop of GetProjectRoles over the rows of the direct
role-assignment query: recognized codes are appended in order, anything
else is skipped. -/
def mapRoleCodes : List RoleRecord → List Int
  | [] => []
  | r :: rest =>
    match r.roleCode with
    | "MDRWS" => RoleProjectAdmin :: mapRoleCodes rest
    | "RWS" => RoleDeveloper :: mapRoleCodes rest
    | "RS" => RoleGuest :: mapRoleCodes rest
    | _ => mapRoleCodes rest

/-- GetRolesByGroup: the group role of the current user to the project.
The nil slice declared by var roles and returned on every precondition
failure (project lookup error or miss, no user, empty group list) and on
query error is none; a successful query returns the dao result as is. -/
def GetRolesByGroup (env : Env) (s : SecurityContext) (p : Option Ident) :
    Option (List Int) :=
  match env.pmGet p, s.user with
  | .error _, _ => none
  | _, none => none
  | .ok none, _ => none
  | .ok (some project), some user =>
    if user.groupList.length = 0 then none
    else
      match env.getRolesByLDAPGroup project.projectID
          (env.getGroupDNQueryCondition user.groupList) with
      | .error _ => none
      | .ok roles => roles

/-- GetProjectRoles: the resolved role set.  Every early return hands back
the non-nil empty slice (some []); only the group fallback can return the
nil slice or a dao result. -/
def GetProjectRoles (env : Env) (s : SecurityContext) (p : Option Ident) :
    Option (List Int) :=
  if !(IsAuthenticated s) || p.isNone then some []
  else
    match env.getUser (GetUsername s) with
    | .error _ => some []
    | .ok none => some []
    | .ok (some user) =>
      match env.pmGet p with
      | .error _ => some []
      | .ok none => some []
      | .ok (some project) =>
        match env.getUserProjectRoles user.userID project.projectID UserMember with
        | .error _ => some []
        | .ok roleList =>
          let roles := mapRoleCodes roleList
          if roles.length ≠ 0 then some roles
          else GetRolesByGroup env s p

/-- Length of a possibly-nil slice: len of a nil slice is 0 in Go. -/
def sliceLen (s : Option (List Int)) : Nat :=
  (s.getD []).length

/-- Range over a possibly-nil slice: ranging over a nil slice yields
nothing in Go. -/
def sliceToList (s : Option (List Int)) : List Int :=
  s.getD []

/-- HasReadPerm: public check first (fail closed on lookup error), then
authentication, then system admin, then a non-empty resolved role set. -/
def HasReadPerm (env : Env) (s : SecurityContext) (p : Option Ident) : Bool :=
  match env.isPublic p with
  | .error _ => false
  | .ok public =>
    if public then true
    else if !(IsAuthenticated s) then false
    else if IsSysAdmin s then true
    else sliceLen (GetProjectRoles env s p) > 0

/-- HasWritePerm: authentication, then system admin, then a resolved role
set containing ProjectAdmin or Developer. -/
def HasWritePerm (env : Env) (s : SecurityContext) (p : Option Ident) : Bool :=
  if !(IsAuthenticated s) then false
  else if IsSysAdmin s then true
  else
    (sliceToList (GetProjectRoles env s p)).any
      (fun role => role == RoleProjectAdmin || role == RoleDeveloper)

/-- HasAllPerm: authentication, then system admin, then a resolved role
set containing ProjectAdmin. -/
def HasAllPerm (env : Env) (s : SecurityContext) (p : Option Ident) : Bool :=
  if !(IsAuthenticated s) then false
  else if IsSysAdmin s then true
  else
    (sliceToList (GetProjectRoles env s p)).any
      (fun role => role == RoleProjectAdmin)

/-- GetMyProjects reads s.user.GroupList with no nil check: when no user
is present the Go code dereferences a nil pointer and panics, modelled as
none; otherwise it forwards the project-manager list result. -/
def GetMyProjects (env : Env) (s : SecurityContext) :
    Option (Except Unit (List Project)) :=
  match s.user with
  | none => none
  | some u => some (env.pmList (GetUsername s) u.groupList)

/-! Concrete fixtures used by witnesses and counterexamples. -/

/-- An ordinary (non-admin) user with one group membership. -/
def bob : User :=
  { username := "bob", hasAdminRole := false, userID := 7, groupList := ["cn=dev,dc=example"] }

/-- A system-admin user. -/
def alice : User :=
  { username := "alice", hasAdminRole := true, userID := 1, groupList := [] }

/-- The unauthenticated context. -/
def ctxAnon : SecurityContext := { user := none }

/-- The context of the non-admin user. -/
def ctxBob : SecurityContext := { user := some bob }

/-- The context of the system admin. -/
def ctxAlice : SecurityContext := { user := some alice }

/-- A concrete project record. -/
def proj1 : Project := { projectID := 10 }

/-- A concrete non-nil project identifier. -/
def pSome : Option Ident := some (.byID 10)

/-- An environment where every lookup succeeds benignly: the project is
private and resolvable, the user record resolves, the direct role query
returns no rows, the group query succeeds with a non-nil empty slice. -/
def envBase : Env :=
  { isPublic := fun _ => .ok false
    pmGet := fun _ => .ok (some proj1)
    getUser := fun n => if n = "bob" then .ok (some bob)
                        else if n = "alice" then .ok (some alice) else .ok none
    getUserProjectRoles := fun _ _ _ => .ok []
    getGroupDNQueryCondition := fun gl => String.intercalate "|" gl
    getRolesByLDAPGroup := fun _ _ => .ok (some [])
    pmList := fun _ _ => .ok [proj1] }

/-- An environment whose public-flag lookup fails. -/
def envPubErr : Env := { envBase with isPublic := fun _ => .error () }

/-- An environment where the project is public. -/
def envPublic : Env := { envBase with isPublic := fun _ => .ok true }

/-- An environment whose user-store lookup fails. -/
def envUserErr : Env := { envBase with getUser := fun _ => .error () }

/-- An environment where the project lookup misses (not found, no error). -/
def envMiss : Env := { envBase with pmGet := fun _ => .ok none }

/-- An environment where the direct role query returns the single code RS
(Guest) and the public-flag lookup fails. -/
def envGuestPubErr : Env :=
  { envBase with
    isPublic := fun _ => .error ()
    getUserProjectRoles := fun _ _ _ => .ok [{ roleCode := "RS" }] }

/-- An environment where the direct role query returns the single code RS. -/
def envGuest : Env :=
  { envBase with getUserProjectRoles := fun _ _ _ => .ok [{ roleCode := "RS" }] }

/-- An environment where the direct role query returns the single code RWS. -/
def envDev : Env :=
  { envBase with getUserProjectRoles := fun _ _ _ => .ok [{ roleCode := "RWS" }] }

/-- An environment where the group-to-role query fails. -/
def envGroupErr : Env :=
  { envBase with getRolesByLDAPGroup := fun _ _ => .error () }

/-- The error and missing-data branches of the role resolution: user-store
error, user not found, project lookup error, project miss, direct
role-query error, and group-role-query error reached after an empty direct
set. -/
def RolesErrPath (env : Env) (s : SecurityContext) (p : Option Ident) : Prop :=
  env.getUser (GetUsername s) = .error () ∨
  env.getUser (GetUsername s) = .ok none ∨
  env.pmGet p = .error () ∨
  env.pmGet p = .ok none ∨
  (∃ su u project, s.user = some su ∧
    env.getUser su.username = .ok (some u) ∧
    env.pmGet p = .ok (some project) ∧
    env.getUserProjectRoles u.userID project.projectID UserMember = .error ()) ∨
  (∃ su u project rl, s.user = some su ∧
    env.getUser su.username = .ok (some u) ∧
    env.pmGet p = .ok (some project) ∧
    env.getUserProjectRoles u.userID project.projectID UserMember = .ok rl ∧
    mapRoleCodes rl = [] ∧
    env.getRolesByLDAPGroup project.projectID
      (env.getGroupDNQueryCondition su.groupList) = .error ())

/-- On every error or missing-data branch the resolved role set has
length zero (it is the non-nil empty slice or the nil slice). -/
theorem rolesErrPath_len_zero (env : Env) (s : SecurityContext) (p : Option Ident)
    (h : RolesErrPath env s p) : sliceLen (GetProjectRoles env s p) = 0 := by
  rcases p with _ | pid
  · simp [GetProjectRoles, sliceLen]
  rcases hu : s.user with _ | su
  · simp [GetProjectRoles, IsAuthenticated, hu, sliceLen]
  have hname : GetUsername s = su.username := by simp [GetUsername, hu]
  rcases h with h | h | h | h |
    ⟨su', u, project, hsu, hgu, hpg, hq⟩ |
    ⟨su', u, project, rl, hsu, hgu, hpg, hq, hmap, hld⟩
  · simp [GetProjectRoles, IsAuthenticated, hu, h, sliceLen]
  · simp [GetProjectRoles, IsAuthenticated, hu, h, sliceLen]
  · cases hg : env.getUser (GetUsername s) with
    | error e => simp [GetProjectRoles, IsAuthenticated, hu, hg, sliceLen]
    | ok ou =>
      cases ou with
      | none => simp [GetProjectRoles, IsAuthenticated, hu, hg, sliceLen]
      | some u => simp [GetProjectRoles, IsAuthenticated, hu, hg, h, sliceLen]
  · cases hg : env.getUser (GetUsername s) with
    | error e => simp [GetProjectRoles, IsAuthenticated, hu, hg, sliceLen]
    | ok ou =>
      cases ou with
      | none => simp [GetProjectRoles, IsAuthenticated, hu, hg, sliceLen]
      | some u => simp [GetProjectRoles, IsAuthenticated, hu, hg, h, sliceLen]
  · have hsu' : su' = su := by rw [hu] at hsu; exact (Option.some_inj.mp hsu).symm
    subst hsu'
    simp [GetProjectRoles, IsAuthenticated, hu, hname, hgu, hpg, hq, sliceLen]
  · have hsu' : su' = su := by rw [hu] at hsu; exact (Option.some_inj.mp hsu).symm
    subst hsu'
    simp only [GetProjectRoles, IsAuthenticated, hu, hname, hgu, hpg, hq,
      Option.isSome_some, Bool.not_true, Bool.false_or, Option.isNone_some,
      Bool.or_self, Bool.false_eq_true, if_false, hmap]
    simp [GetRolesByGroup, hpg, hu, hld, sliceLen, hmap]

/-! Theorems settling the claims. -/

/-- C1: the permission predicates are fail-closed.  A public-flag lookup
failure makes HasReadPerm false, and whenever a predicate is decided by
the role resolution (public flag resolved to false, principal not a
system admin), every error or missing-data branch of the resolution —
user-store error, user not found, project lookup error or miss, direct
role-query error, group-role-query error — makes all three predicates
false, never true. -/
theorem C1_fail_closed (env : Env) (s : SecurityContext) (p : Option Ident) :
    (env.isPublic p = .error () → HasReadPerm env s p = false) ∧
    (env.isPublic p = .ok false → IsSysAdmin s = false → RolesErrPath env s p →
      HasReadPerm env s p = false ∧ HasWritePerm env s p = false ∧
      HasAllPerm env s p = false) := by
  constructor
  · intro h
    simp [HasReadPerm, h]
  · intro hpub hadm herr
    have hlen := rolesErrPath_len_zero env s p herr
    have hlist : sliceToList (GetProjectRoles env s p) = [] := by
      rcases hres : GetProjectRoles env s p with _ | l
      · simp [sliceToList]
      · rw [hres] at hlen
        simp only [sliceLen, Option.getD_some, List.length_eq_zero] at hlen
        simp [sliceToList, hlen]
    refine ⟨?_, ?_, ?_⟩
    · cases hA : IsAuthenticated s <;> simp [HasReadPerm, hpub, hA, hadm, hlen]
    · cases hA : IsAuthenticated s <;> simp [HasWritePerm, hA, hadm, hlist]
    · cases hA : IsAuthenticated s <;> simp [HasAllPerm, hA, hadm, hlist]

/-- C1 witness: a failing public-flag lookup denies read, and a failing
user-store lookup denies read, write and admin for a concrete non-admin
authenticated context. -/
theorem C1_fail_closed_witness :
    HasReadPerm envPubErr ctxBob pSome = false ∧
    (HasReadPerm envUserErr ctxBob pSome = false ∧
     HasWritePerm envUserErr ctxBob pSome = false ∧
     HasAllPerm envUserErr ctxBob pSome = false) :=
  ⟨(C1_fail_closed envPubErr ctxBob pSome).1 rfl,
   (C1_fail_closed envUserErr ctxBob pSome).2 rfl rfl (Or.inl rfl)⟩

/-- C3 counterexample: the claim says all three predicates return true for
a system admin for any project identifier, but HasReadPerm checks the
public flag before the admin override: on a concrete environment whose
public-flag lookup fails, HasReadPerm is false for the admin context. -/
theorem C3_counterexample :
    IsSysAdmin ctxAlice = true ∧ HasReadPerm envPubErr ctxAlice pSome = false := by
  constructor <;> rfl

/-- C3 amended: for every context with the system-admin flag set,
HasWritePerm and HasAllPerm return true for any project identifier and
any environment (including project lookup misses and errors), and
HasReadPerm returns true whenever the public-flag lookup does not fail —
in particular for a project whose lookup misses. -/
theorem C3_admin_override (env : Env) (s : SecurityContext) (p : Option Ident)
    (hadmin : IsSysAdmin s = true) :
    HasWritePerm env s p = true ∧ HasAllPerm env s p = true ∧
    (env.isPublic p ≠ .error () → HasReadPerm env s p = true) := by
  have hauth : IsAuthenticated s = true := by
    rcases hu : s.user with _ | u
    · rw [IsSysAdmin, hu] at hadmin
      exact absurd hadmin (by simp)
    · simp [IsAuthenticated, hu]
  refine ⟨?_, ?_, ?_⟩
  · simp [HasWritePerm, hauth, hadmin]
  · simp [HasAllPerm, hauth, hadmin]
  · intro hne
    cases hres : env.isPublic p with
    | error e => cases e; exact absurd hres hne
    | ok b => cases b <;> simp [HasReadPerm, hres, hauth, hadmin]

/-- C3 amended witness: the admin context on an environment whose project
lookup misses (and whose public flag resolves to false): all three
predicates are true. -/
theorem C3_admin_override_witness :
    HasWritePerm envMiss ctxAlice pSome = true ∧
    HasAllPerm envMiss ctxAlice pSome = true ∧
    HasReadPerm envMiss ctxAlice pSome = true :=
  have h := C3_admin_override envMiss ctxAlice pSome rfl
  ⟨h.1, h.2.1, h.2.2 (by simp [envMiss, envBase])⟩

/-- C2: whenever the public flag of the project resolves to true without
error, HasReadPerm returns true for every context (principal absent,
authenticated with or without roles, admin or not) and every environment:
the public check is taken before authentication, admin, or role checks. -/
theorem C2_public_read (env : Env) (s : SecurityContext) (p : Option Ident)
    (h : env.isPublic p = .ok true) : HasReadPerm env s p = true := by
  simp [HasReadPerm, h]

/-- C2 witness: on a concrete public environment, the anonymous context
gets read permission. -/
theorem C2_public_read_witness : HasReadPerm envPublic ctxAnon pSome = true :=
  C2_public_read envPublic ctxAnon pSome rfl

/-- C4: for every unauthenticated context, every environment and every
project identifier, HasWritePerm and HasAllPerm are false, GetProjectRoles
is the empty (non-nil) slice, GetUsername is the empty-string sentinel and
IsSysAdmin is false. -/
theorem C4_unauthenticated (env : Env) (s : SecurityContext) (p : Option Ident)
    (h : s.user = none) :
    HasWritePerm env s p = false ∧ HasAllPerm env s p = false ∧
    GetProjectRoles env s p = some [] ∧ GetUsername s = "" ∧
    IsSysAdmin s = false := by
  refine ⟨?_, ?_, ?_, ?_, ?_⟩ <;>
    simp [HasWritePerm, HasAllPerm, GetProjectRoles, GetUsername, IsSysAdmin,
      IsAuthenticated, h]

/-- C4 witness: the concrete anonymous context on a concrete environment. -/
theorem C4_unauthenticated_witness :
    HasWritePerm envBase ctxAnon pSome = false ∧
    HasAllPerm envBase ctxAnon pSome = false ∧
    GetProjectRoles envBase ctxAnon pSome = some [] ∧
    GetUsername ctxAnon = "" ∧ IsSysAdmin ctxAnon = false :=
  C4_unauthenticated envBase ctxAnon pSome rfl

/-- C5 counterexample: for an authenticated non-admin context whose
resolved role set is exactly the singleton Guest, the claim says
HasReadPerm returns true; but HasReadPerm fails closed on a public-flag
lookup failure before consulting the roles, so on a concrete environment
where the direct role query yields Guest while the public-flag lookup
fails, HasReadPerm is false. -/
theorem C5_counterexample :
    IsAuthenticated ctxBob = true ∧ IsSysAdmin ctxBob = false ∧
    sliceToList (GetProjectRoles envGuestPubErr ctxBob pSome) = [RoleGuest] ∧
    HasReadPerm envGuestPubErr ctxBob pSome = false := by
  refine ⟨rfl, rfl, ?_, rfl⟩
  rfl

/-- C5 amended: for an authenticated non-admin context, if the resolved
role set contains ProjectAdmin then HasWritePerm and HasAllPerm are true;
if it contains only Guest then HasWritePerm and HasAllPerm are false, and
HasReadPerm is true provided the public-flag lookup does not fail; if it
contains Developer but not ProjectAdmin then HasWritePerm is true and
HasAllPerm is false. -/
theorem C5_role_implications (env : Env) (s : SecurityContext) (p : Option Ident)
    (hauth : IsAuthenticated s = true) (hadmin : IsSysAdmin s = false) :
    (RoleProjectAdmin ∈ sliceToList (GetProjectRoles env s p) →
      HasWritePerm env s p = true ∧ HasAllPerm env s p = true) ∧
    ((∀ r ∈ sliceToList (GetProjectRoles env s p), r = RoleGuest) →
      sliceToList (GetProjectRoles env s p) ≠ [] →
      HasWritePerm env s p = false ∧ HasAllPerm env s p = false ∧
      (env.isPublic p ≠ .error () → HasReadPerm env s p = true)) ∧
    (RoleDeveloper ∈ sliceToList (GetProjectRoles env s p) →
      RoleProjectAdmin ∉ sliceToList (GetProjectRoles env s p) →
      HasWritePerm env s p = true ∧ HasAllPerm env s p = false) := by
  refine ⟨?_, ?_, ?_⟩
  · intro hmem
    constructor
    · simp only [HasWritePerm, hauth, hadmin, Bool.not_true, if_false,
        Bool.false_eq_true, List.any_eq_true]
      exact ⟨RoleProjectAdmin, hmem, by simp⟩
    · simp only [HasAllPerm, hauth, hadmin, Bool.not_true, if_false,
        Bool.false_eq_true, List.any_eq_true]
      exact ⟨RoleProjectAdmin, hmem, by simp⟩
  · intro hall hne
    refine ⟨?_, ?_, ?_⟩
    · simp only [HasWritePerm, hauth, hadmin, Bool.not_true, if_false,
        Bool.false_eq_true, List.any_eq_false]
      intro r hr
      rw [hall r hr]
      simp [RoleGuest, RoleProjectAdmin, RoleDeveloper]
    · simp only [HasAllPerm, hauth, hadmin, Bool.not_true, if_false,
        Bool.false_eq_true, List.any_eq_false]
      intro r hr
      rw [hall r hr]
      simp [RoleGuest, RoleProjectAdmin]
    · intro hnerr
      cases hres : env.isPublic p with
      | error e => cases e; exact absurd hres hnerr
      | ok b =>
        cases b with
        | true => simp [HasReadPerm, hres]
        | false =>
          have hpos : 0 < sliceLen (GetProjectRoles env s p) := by
            rw [sliceLen]
            exact List.length_pos.mpr hne
          simp [HasReadPerm, hres, hauth, hadmin, hpos]
  · intro hdev hnpa
    constructor
    · simp only [HasWritePerm, hauth, hadmin, Bool.not_true, if_false,
        Bool.false_eq_true, List.any_eq_true]
      exact ⟨RoleDeveloper, hdev, by simp⟩
    · simp only [HasAllPerm, hauth, hadmin, Bool.not_true, if_false,
        Bool.false_eq_true, List.any_eq_false]
      intro r hr
      simp only [beq_iff_eq]
      intro heq
      exact hnpa (heq ▸ hr)

/-- C5 amended witness: concrete direct roles RWS (Developer) give write
but not admin; concrete direct roles RS (Guest) give read but neither
write nor admin. -/
theorem C5_role_implications_witness :
    (HasWritePerm envDev ctxBob pSome = true ∧
     HasAllPerm envDev ctxBob pSome = false) ∧
    (HasWritePerm envGuest ctxBob pSome = false ∧
     HasAllPerm envGuest ctxBob pSome = false ∧
     HasReadPerm envGuest ctxBob pSome = true) := by
  constructor
  · exact (C5_role_implications envDev ctxBob pSome rfl rfl).2.2
      (by decide) (by decide)
  · have h := (C5_role_implications envGuest ctxBob pSome rfl rfl).2.1
      (by decide) (by decide)
    exact ⟨h.1, h.2.1, h.2.2 (by simp [envGuest, envBase])⟩

/-- C6: with a principal and a non-nil identifier, whenever the user
record, the project and the direct role-assignment rows resolve, and the
rows map to a non-empty role set, GetProjectRoles returns exactly that
direct set — for every environment agreeing on those three collaborators,
whatever its group collaborators do, so the group path is never consulted;
when the direct set is empty the result is exactly GetRolesByGroup. -/
theorem C6_direct_precedence (s : SecurityContext) (p : Option Ident)
    (su u : User) (project : Project) (rl : List RoleRecord)
    (hsu : s.user = some su) (hp : p.isNone = false) :
    ∀ env : Env, env.getUser su.username = .ok (some u) →
      env.pmGet p = .ok (some project) →
      env.getUserProjectRoles u.userID project.projectID UserMember = .ok rl →
      (mapRoleCodes rl ≠ [] → GetProjectRoles env s p = some (mapRoleCodes rl)) ∧
      (mapRoleCodes rl = [] → GetProjectRoles env s p = GetRolesByGroup env s p) := by
  intro env hgu hpg hq
  have hname : GetUsername s = su.username := by simp [GetUsername, hsu]
  constructor
  · intro hne
    simp [GetProjectRoles, IsAuthenticated, hsu, hp, hname, hgu, hpg, hq, hne]
  · intro hemp
    simp [GetProjectRoles, IsAuthenticated, hsu, hp, hname, hgu, hpg, hq, hemp]

/-- C6 witness: a concrete environment with the direct code RWS resolves
to the Developer singleton, and one with no direct rows falls back to the
group path. -/
theorem C6_direct_precedence_witness :
    GetProjectRoles envDev ctxBob pSome = some [RoleDeveloper] ∧
    GetProjectRoles envBase ctxBob pSome = GetRolesByGroup envBase ctxBob pSome :=
  ⟨(C6_direct_precedence ctxBob pSome bob bob proj1 [{ roleCode := "RWS" }]
      rfl rfl envDev rfl rfl rfl).1 (by decide),
   (C6_direct_precedence ctxBob pSome bob bob proj1 []
      rfl rfl envBase rfl rfl rfl).2 rfl⟩

/-- C7: the role-code mapping is exactly MDRWS to ProjectAdmin, RWS to
Developer, RS to Guest; any other code is dropped by the mapping loop and
contributes nothing to the resolved set. -/
theorem C7_role_code_mapping :
    (∀ rest, mapRoleCodes ({ roleCode := "MDRWS" } :: rest) =
      RoleProjectAdmin :: mapRoleCodes rest) ∧
    (∀ rest, mapRoleCodes ({ roleCode := "RWS" } :: rest) =
      RoleDeveloper :: mapRoleCodes rest) ∧
    (∀ rest, mapRoleCodes ({ roleCode := "RS" } :: rest) =
      RoleGuest :: mapRoleCodes rest) ∧
    (∀ (r : RoleRecord) rest, r.roleCode ≠ "MDRWS" → r.roleCode ≠ "RWS" →
      r.roleCode ≠ "RS" → mapRoleCodes (r :: rest) = mapRoleCodes rest) ∧
    (∀ rl : List RoleRecord,
      mapRoleCodes rl = rl.filterMap (fun r => roleOfCode r.roleCode)) := by
  have hnone : ∀ (r : RoleRecord) rest, r.roleCode ≠ "MDRWS" → r.roleCode ≠ "RWS" →
      r.roleCode ≠ "RS" → mapRoleCodes (r :: rest) = mapRoleCodes rest := by
    intro r rest h1 h2 h3
    conv_lhs => unfold mapRoleCodes
    split <;> simp_all
  refine ⟨fun rest => rfl, fun rest => rfl, fun rest => rfl, hnone, ?_⟩
  intro rl
  induction rl with
  | nil => rfl
  | cons r rest ih =>
    rw [List.filterMap_cons]
    by_cases h1 : r.roleCode = "MDRWS"
    · obtain ⟨c⟩ := r
      subst h1
      simp [mapRoleCodes, roleOfCode, ih]
    by_cases h2 : r.roleCode = "RWS"
    · obtain ⟨c⟩ := r
      subst h2
      simp [mapRoleCodes, roleOfCode, ih]
    by_cases h3 : r.roleCode = "RS"
    · obtain ⟨c⟩ := r
      subst h3
      simp [mapRoleCodes, roleOfCode, ih]
    · have hoc : roleOfCode r.roleCode = none := by
        unfold roleOfCode
        split <;> simp_all
      rw [hnone r rest h1 h2 h3, hoc, ih]

/-- C7 witness: the mapping evaluated on one concrete row of each
recognized code and on an unrecognized code. -/
theorem C7_role_code_mapping_witness :
    mapRoleCodes [{ roleCode := "MDRWS" }] = [RoleProjectAdmin] ∧
    mapRoleCodes [{ roleCode := "RWS" }] = [RoleDeveloper] ∧
    mapRoleCodes [{ roleCode := "RS" }] = [RoleGuest] ∧
    mapRoleCodes [{ roleCode := "XYZ" }, { roleCode := "RS" }] = [RoleGuest] :=
  ⟨C7_role_code_mapping.1 [],
   C7_role_code_mapping.2.1 [],
   C7_role_code_mapping.2.2.1 [],
   by
    rw [C7_role_code_mapping.2.2.2.1 { roleCode := "XYZ" } [{ roleCode := "RS" }]
      (by decide) (by decide) (by decide)]
    exact C7_role_code_mapping.2.2.1 []⟩

/-- C9 counterexample: the claim says the query-error result of
GetRolesByGroup is distinguishable from the empty result of its
precondition failures, but both are the nil slice: on a concrete
environment whose group-to-role query fails, the authenticated context
with groups (query-error path) and the unauthenticated context
(precondition-failure path) get the identical result none; a successful
query with no matching roles instead passes through the non-nil empty
slice. -/
theorem C9_counterexample :
    GetRolesByGroup envGroupErr ctxBob pSome = none ∧
    GetRolesByGroup envGroupErr ctxAnon pSome = none ∧
    GetRolesByGroup envBase ctxBob pSome = some [] := by
  refine ⟨rfl, rfl, rfl⟩

/-- C9 amended: on query error GetRolesByGroup returns the nil slice,
which is distinguishable from whatever a successful query passes through
(in particular the non-nil empty slice) but is identical to the nil slice
returned on its precondition failures (no principal, empty group list,
unresolvable project). -/
theorem C9_group_error (env : Env) (s : SecurityContext) (p : Option Ident) :
    (s.user = none → GetRolesByGroup env s p = none) ∧
    (∀ su project, s.user = some su → su.groupList ≠ [] →
      env.pmGet p = .ok (some project) →
      (env.getRolesByLDAPGroup project.projectID
          (env.getGroupDNQueryCondition su.groupList) = .error () →
        GetRolesByGroup env s p = none) ∧
      (∀ rs, env.getRolesByLDAPGroup project.projectID
          (env.getGroupDNQueryCondition su.groupList) = .ok rs →
        GetRolesByGroup env s p = rs)) := by
  constructor
  · intro h
    cases hg : env.pmGet p with
    | error e => simp [GetRolesByGroup, h, hg]
    | ok op => simp [GetRolesByGroup, h, hg]
  · intro su project hsu hgl hpg
    have hlen : ¬ su.groupList.length = 0 := by
      simpa [List.length_eq_zero] using hgl
    constructor
    · intro herr
      simp [GetRolesByGroup, hsu, hpg, hlen, herr]
    · intro rs hok
      simp [GetRolesByGroup, hsu, hpg, hlen, hok]

/-- C9 amended witness: the concrete query-error environment yields none
for both the authenticated-with-groups context and the anonymous context,
while the concrete successful environment passes the non-nil empty slice
through. -/
theorem C9_group_error_witness :
    GetRolesByGroup envGroupErr ctxAnon pSome = none ∧
    GetRolesByGroup envGroupErr ctxBob pSome = none ∧
    GetRolesByGroup envBase ctxBob pSome = some [] :=
  ⟨(C9_group_error envGroupErr ctxAnon pSome).1 rfl,
   ((C9_group_error envGroupErr ctxBob pSome).2 bob proj1 rfl (by decide) rfl).1 rfl,
   ((C9_group_error envBase ctxBob pSome).2 bob proj1 rfl (by decide) rfl).2
     (some []) rfl⟩

/-- C8: with an absent (nil) project identifier, GetProjectRoles returns
the empty slice for every context and every environment — the environment
being universally quantified, no collaborator can influence the result, so
none is consulted, exactly as for a project that is not found. -/
theorem C8_nil_identifier (env : Env) (s : SecurityContext) :
    GetProjectRoles env s none = some [] := by
  simp [GetProjectRoles]

/-- C10: GetMyProjects has no authentication guard: with no principal it
dereferences the absent user (the none result models the nil-pointer
panic) instead of returning an empty list or a failure; with a principal
present it is well defined and forwards the store result, errors included. -/
theorem C10_getMyProjects_deref (env : Env) (s : SecurityContext) :
    (s.user = none → GetMyProjects env s = none) ∧
    (∀ u, s.user = some u →
      GetMyProjects env s = some (env.pmList u.username u.groupList)) := by
  constructor
  · intro h
    simp [GetMyProjects, h]
  · intro u h
    simp [GetMyProjects, GetUsername, h]

/-- C10 witness: the anonymous context crashes (none), the authenticated
context gets the listing result. -/
theorem C10_getMyProjects_deref_witness :
    GetMyProjects envBase ctxAnon = none ∧
    GetMyProjects envBase ctxBob = some (.ok [proj1]) :=
  ⟨(C10_getMyProjects_deref envBase ctxAnon).1 rfl,
   (C10_getMyProjects_deref envBase ctxBob).2 bob rfl⟩

end Harbor
